import Mathlib

/-!
Verification development for the CV-JD matching server
(`server.js`, universal-provider version): a shallow embedding in
Lean 4 of the data model and operations of the batch matching
pipeline, together with theorems about its documented behaviour.

Conventions of the embedding:
* JavaScript JSON values are modelled by the inductive type `Json`.
  Numbers are kept in exact decimal scientific form (mantissa and a
  power-of-ten exponent), which represents every numeric literal the
  JSON grammar can produce; binary floating point rounding is not
  modelled (no claim depends on it).
* Fallible code is modelled with `Option` or `Except`.
* Network requests are modelled by an oracle value (`FetchOutcome`)
  describing what the single outbound call of the function under
  consideration did: threw, returned a non-success HTTP status, or
  returned a textual completion.  The prompt-building parts of the
  source only influence the outbound request and are summarised by
  that oracle.
* The process-wide mutable name cache is threaded explicitly as an
  association list (newest binding first, as JS property assignment
  overwrites).
-/

/- ============================================================
   JSON values
   ============================================================ -/

/-- JavaScript JSON value.  `num m e` denotes the number `m * 10 ^ e`. -/
inductive Json where
  | null : Json
  | bool (b : Bool) : Json
  | num (mant : Int) (exp10 : Int) : Json
  | str (s : String) : Json
  | obj (fields : List (String × Json)) : Json

/-- Property lookup on a parsed JSON object (`result.name` etc.).
JSON.parse keeps the last duplicate key, and our parser appends fields
in order, so lookup scans from the right.  On non-objects the lookup
yields `none` (undefined). -/
def objGet (v : Json) (key : String) : Option Json :=
  match v with
  | .obj fields => (fields.reverse.find? (fun kv => kv.fst = key)).map (·.snd)
  | _ => none

/-- JavaScript truthiness of a JSON value. -/
def jsTruthy : Json → Bool
  | .null => false
  | .bool b => b
  | .num m _ => m != 0
  | .str s => !s.isEmpty
  | .obj _ => true

/-- Truthiness where `none` stands for `undefined`/`null`. -/
def jsTruthyOpt : Option Json → Bool
  | none => false
  | some v => jsTruthy v

/- ============================================================
   parseInt
   ============================================================ -/

/-- Truncation toward zero of `m * 10 ^ e`, the value `parseInt`
produces from the default decimal rendering of such a number.
(Exponential renderings of very large or very small magnitudes are not
modelled; provider scores are small integers.) -/
def truncSci (m e : Int) : Int :=
  if 0 ≤ e then m * (10 : Int) ^ e.toNat else m.tdiv ((10 : Int) ^ (-e).toNat)

/-- ASCII decimal digit test. -/
def isDigitA (c : Char) : Bool := '0' ≤ c && c ≤ '9'

/-- Leading decimal digits of a character list, as a natural number,
with the unconsumed rest.  `none` when there is no leading digit. -/
def leadingDigits (acc : Nat) (sawOne : Bool) : List Char → Option (Nat × List Char)
  | [] => if sawOne then some (acc, []) else none
  | c :: cs =>
    if isDigitA c then leadingDigits (acc * 10 + (c.toNat - '0'.toNat)) true cs
    else if sawOne then some (acc, c :: cs) else none

/-- JavaScript whitespace (the common ASCII cases plus NBSP). -/
def isSpaceJS (c : Char) : Bool :=
  c = ' ' || c = '\t' || c = '\n' || c = '\r' || c = '\x0b' || c = '\x0c' || c = '\u00A0'

/-- `parseInt` on a string: skip leading whitespace, optional sign,
then leading decimal digits; `none` is NaN.  (The automatic base-16
mode for a leading `0x` is not modelled; no score string uses it.) -/
def parseIntStr (cs : List Char) : Option Int :=
  match cs.dropWhile isSpaceJS with
  | '-' :: rest => (leadingDigits 0 false rest).map (fun p => -(p.fst : Int))
  | '+' :: rest => (leadingDigits 0 false rest).map (fun p => (p.fst : Int))
  | rest => (leadingDigits 0 false rest).map (fun p => (p.fst : Int))

/-- `parseInt(x)` for a possibly-undefined JSON value `x`.
`undefined`, `null`, booleans and objects stringify to text with no
leading digits, hence NaN. -/
def parseIntJS : Option Json → Option Int
  | some (.num m e) => some (truncSci m e)
  | some (.str s) => parseIntStr s.data
  | _ => none

/-- `Math.max(0, Math.min(100, parseInt(result.match_score) || 50))`
from `scoreResumeWithLLM`.  The argument is the raw `match_score`
field of the parsed provider reply (`none` when the field is absent). -/
def coerceMatchScore (v : Option Json) : Int :=
  let i : Int :=
    match parseIntJS v with
    | none => 50
    | some n => if n = 0 then 50 else n
  max 0 (min 100 i)

example : coerceMatchScore (some (.num 150 0)) = 100 := by decide
example : coerceMatchScore (some (.str "N/A")) = 50 := by decide
example : coerceMatchScore (some (.num 0 0)) = 50 := by decide
example : coerceMatchScore (some (.num 4 (-1))) = 50 := by decide
example : coerceMatchScore (some (.num (-37) (-1))) = 0 := by decide
example : coerceMatchScore none = 50 := by decide
example : coerceMatchScore (some (.num 85 0)) = 85 := by decide

/- ============================================================
   JSON.parse (the fragment the server exchanges: objects whose
   values are strings, numbers, booleans, null or nested objects;
   arrays do not occur in any prompt or reply of this server and are
   not modelled)
   ============================================================ -/

/-- JSON whitespace. -/
def isWsJSON (c : Char) : Bool :=
  c = ' ' || c = '\t' || c = '\n' || c = '\r'

/-- One string-escape: the character denoted, or `none` if invalid. -/
def jsonEscape (c : Char) : Option Char :=
  if c = '"' then some '"'
  else if c = '\\' then some '\\'
  else if c = '/' then some '/'
  else if c = 'b' then some '\x08'
  else if c = 'f' then some '\x0c'
  else if c = 'n' then some '\n'
  else if c = 'r' then some '\r'
  else if c = 't' then some '\t'
  else none

/-- Numeric value of one hexadecimal digit (either case). -/
def hexVal (c : Char) : Option Nat :=
  if isDigitA c then
    some (c.toNat - 48)
  else
    let l := c.toLower
    if 'a' ≤ l && l ≤ 'f' then some (l.toNat - 87) else none

/-- Body of a JSON string after the opening quote: the decoded
characters and the rest after the closing quote.  Raw control
characters and invalid escapes are errors, as in `JSON.parse`. -/
def parseStringBody : List Char → Option (List Char × List Char)
  | [] => none
  | '"' :: rest => some ([], rest)
  | '\\' :: 'u' :: h1 :: h2 :: h3 :: h4 :: rest =>
    match hexVal h1, hexVal h2, hexVal h3, hexVal h4 with
    | some a, some b, some c, some d =>
      (parseStringBody rest).map (fun p =>
        (Char.ofNat (((a * 16 + b) * 16 + c) * 16 + d) :: p.fst, p.snd))
    | _, _, _, _ => none
  | '\\' :: e :: rest =>
    match jsonEscape e with
    | some c => (parseStringBody rest).map (fun p => (c :: p.fst, p.snd))
    | none => none
  | c :: rest =>
    if c.toNat < 32 then none
    else (parseStringBody rest).map (fun p => (c :: p.fst, p.snd))

/-- A JSON number at the head of the input: sign, integer part (with
the JSON no-leading-zero rule), optional fraction, optional exponent.
Returns mantissa, power-of-ten exponent, and the rest. -/
def parseNumber (cs : List Char) : Option (Int × Int × List Char) := do
  let (neg, cs) := match cs with
    | '-' :: t => (true, t)
    | _ => (false, cs)
  let (ip, cs) ← match cs with
    | '0' :: t => some ((0 : Nat), t)
    | _ => leadingDigits 0 false cs
  let (mant, e10, cs) ← do
    match cs with
    | '.' :: t =>
      match leadingDigits 0 false t with
      | none => none
      | some (fp, rest) =>
        let k := t.length - rest.length
        some ((ip * 10 ^ k + fp : Nat), -(k : Int), rest)
    | _ => some (ip, (0 : Int), cs)
  let (e10, cs) ← do
    match cs with
    | 'e' :: t | 'E' :: t =>
      let (eneg, t) := match t with
        | '-' :: t2 => (true, t2)
        | '+' :: t2 => (false, t2)
        | _ => (false, t)
      match leadingDigits 0 false t with
      | none => none
      | some (ev, rest) => some (e10 + (if eneg then -(ev : Int) else (ev : Int)), rest)
    | _ => some (e10, cs)
  some (if neg then -(mant : Int) else (mant : Int), e10, cs)

/-- Parser mode: a value, or the field list of an object (`first` is
true before any field has been read). -/
inductive PMode where
  | value : PMode
  | fields (first : Bool) (acc : List (String × Json)) : PMode

/-- Recursive JSON parser, structurally recursive on fuel so that the
kernel can evaluate it. -/
def parseJ : Nat → PMode → List Char → Option (Json × List Char)
  | 0, _, _ => none
  | fuel + 1, .value, cs =>
    match cs.dropWhile isWsJSON with
    | '{' :: rest => parseJ fuel (.fields true []) rest
    | '"' :: rest => (parseStringBody rest).map (fun p => (.str (String.mk p.fst), p.snd))
    | 't' :: 'r' :: 'u' :: 'e' :: rest => some (.bool true, rest)
    | 'f' :: 'a' :: 'l' :: 's' :: 'e' :: rest => some (.bool false, rest)
    | 'n' :: 'u' :: 'l' :: 'l' :: rest => some (.null, rest)
    | rest => (parseNumber rest).map (fun p => (.num p.fst p.snd.fst, p.snd.snd))
  | fuel + 1, .fields first acc, cs =>
    match cs.dropWhile isWsJSON with
    | '}' :: rest => if first then some (.obj acc, rest) else none
    | cs' =>
      match cs' with
      | '"' :: rest => do
        let (key, rest) ← parseStringBody rest
        match rest.dropWhile isWsJSON with
        | ':' :: rest2 => do
          let (v, rest3) ← parseJ fuel .value rest2
          let acc := acc ++ [(String.mk key, v)]
          match rest3.dropWhile isWsJSON with
          | ',' :: rest4 => parseJ fuel (.fields false acc) rest4
          | '}' :: rest4 => some (.obj acc, rest4)
          | _ => none
        | _ => none
      | _ => none

/-- `JSON.parse` on a character list: a single value followed only by
whitespace. -/
def jsonParse (cs : List Char) : Option Json :=
  match parseJ (2 * cs.length + 8) .value cs with
  | some (v, rest) => if (rest.dropWhile isWsJSON).isEmpty then some v else none
  | none => none

example : jsonParse (['{', '"', 'a', '"', ':', '1'] ++ ['}']) = some (.obj [("a", .num 1 0)]) := by rfl
example : jsonParse ('{' :: '}' :: []) = some (.obj []) := by rfl
example : jsonParse (['1', '.', '5']) = some (.num 15 (-1)) := by rfl
example : jsonParse (['x']) = none := by rfl

/- ============================================================
   extractJSON
   ============================================================ -/

/-- The match of the regex `/\{[\s\S]*\}/` against a text: it starts
at the first `{` that is followed (anywhere later) by a `}`, and the
greedy `[\s\S]*` extends it to the last `}` of the text.  If the first
`{` of the text has no later `}` then no later `{` has one either, so
the match, when it exists, runs from the first `{` to the last `}`. -/
def braceSpan (cs : List Char) : Option (List Char) :=
  if ((cs.dropWhile (· ≠ '{')).reverse.dropWhile (· ≠ '}')).reverse.isEmpty then none
  else some ((cs.dropWhile (· ≠ '{')).reverse.dropWhile (· ≠ '}')).reverse

/-- `extractJSON` from the source: match `/\{[\s\S]*\}/`, throw
`LLM did not return valid JSON` when there is no match, then
`JSON.parse` the matched span (a parse failure throws a SyntaxError,
modelled by the second error message). -/
def extractJSON (cs : List Char) : Except String Json :=
  match braceSpan cs with
  | none => .error "LLM did not return valid JSON"
  | some span =>
    match jsonParse span with
    | some v => .ok v
    | none => .error "Unexpected token in JSON"

/-- Taking characters up to the point where every opened `{` has been
closed again; used only by the specification-worded extractor below. -/
def takeBalanced (depth : Nat) (acc : List Char) : List Char → Option (List Char)
  | [] => none
  | c :: rest =>
    if c = '{' then takeBalanced (depth + 1) (acc ++ [c]) rest
    else if c = '}' then
      if depth = 1 then some (acc ++ [c]) else takeBalanced (depth - 1) (acc ++ [c]) rest
    else takeBalanced depth (acc ++ [c]) rest

/-- The first balanced `{...}` span of a text, starting at its first
`{`.  This follows the specification text, not the source. -/
def firstBalancedSpan (cs : List Char) : Option (List Char) :=
  takeBalanced 0 [] (cs.dropWhile (· ≠ '{'))

/-- Extractor as worded by the specification: locate the FIRST
balanced `{...}` JSON object in the reply and parse it; fail when none
is found or parsing fails.  Kept for comparison with `extractJSON`,
which is translated from the source. -/
def extractJSONSpec (cs : List Char) : Except String Json :=
  match firstBalancedSpan cs with
  | none => .error "LLM did not return valid JSON"
  | some span =>
    match jsonParse span with
    | some v => .ok v
    | none => .error "Unexpected token in JSON"

/-- A provider reply containing two JSON objects. -/
def twoObjectReply : List Char :=
  ['{', '"', 'a', '"', ':', '1', '}', ' ', '{', '"', 'b', '"', ':', '2', '}']

example : braceSpan twoObjectReply = some twoObjectReply := by rfl
example : extractJSON twoObjectReply = .error "Unexpected token in JSON" := by rfl
example : extractJSONSpec twoObjectReply = .ok (.obj [("a", .num 1 0)]) := by rfl

/- ============================================================
   A small backtracking regex engine (greedy, leftmost), used to
   transcribe the deterministic extraction patterns of the source
   ============================================================ -/

/-- Regular expression over characters: empty word, character class,
concatenation, ordered alternation, greedy Kleene star. -/
inductive RE where
  | eps : RE
  | cls (p : Char → Bool) : RE
  | seq (r s : RE) : RE
  | alt (r s : RE) : RE
  | star (r : RE) : RE

/-- Syntactic size, used only to provision evaluation fuel. -/
def RE.size : RE → Nat
  | .eps => 1
  | .cls _ => 1
  | .seq r s => r.size + s.size + 1
  | .alt r s => r.size + s.size + 1
  | .star r => r.size + 1

/-- Backtracking matcher in continuation style.  Alternation tries the
left branch first and the star is greedy, as in JavaScript.  The fuel
only bounds the depth of a single backtracking chain; every star body
in the transcribed patterns consumes at least one character, so the
provisioned fuel is never exhausted on them. -/
def reMat : Nat → RE → List Char → (List Char → Option (List Char)) → Option (List Char)
  | 0, _, _, _ => none
  | _ + 1, .eps, cs, k => k cs
  | _ + 1, .cls _, [], _ => none
  | _ + 1, .cls p, c :: cs, k => if p c then k cs else none
  | fuel + 1, .seq r s, cs, k => reMat fuel r cs (fun cs' => reMat fuel s cs' k)
  | fuel + 1, .alt r s, cs, k =>
    match reMat fuel r cs k with
    | some res => some res
    | none => reMat fuel s cs k
  | fuel + 1, .star r, cs, k =>
    match reMat fuel r cs (fun cs' => reMat fuel (.star r) cs' k) with
    | some res => some res
    | none => k cs

/-- Match at the head of `cs`, returning the rest after the match. -/
def matchHere (r : RE) (cs : List Char) : Option (List Char) :=
  reMat (4 * (cs.length + r.size + 4)) r cs some

/-- Anchored whole-string test (`^pattern$`). -/
def reTest (r : RE) (cs : List Char) : Bool :=
  (reMat (4 * (cs.length + r.size + 4)) r cs
    (fun rest => if rest.isEmpty then some [] else none)).isSome

/-- First (leftmost) match of a pattern in a text, as `String.match`
returns it in `m[0]`. -/
def firstMatch (r : RE) : List Char → Option (List Char)
  | [] =>
    match matchHere r [] with
    | some _ => some []
    | none => none
  | c :: t =>
    match matchHere r (c :: t) with
    | some rest => some ((c :: t).take ((c :: t).length - rest.length))
    | none => firstMatch r t

def rchar (c : Char) : RE := .cls (fun d => d = c)

/-- Case-insensitive literal character (for the `i` flag). -/
def ichar (c : Char) : RE := .cls (fun d => d.toLower = c.toLower)

def rstr (s : String) : RE := (s.data.map rchar).foldr RE.seq RE.eps

def ristr (s : String) : RE := (s.data.map ichar).foldr RE.seq RE.eps

def ropt (r : RE) : RE := .alt r .eps

def rplus (r : RE) : RE := .seq r (.star r)

def rrep (r : RE) (n : Nat) : RE := (List.replicate n r).foldr RE.seq RE.eps

/- ============================================================
   Character classes and the transcribed patterns
   ============================================================ -/

def isUpperA (c : Char) : Bool := 'A' ≤ c && c ≤ 'Z'

def isLowerA (c : Char) : Bool := 'a' ≤ c && c ≤ 'z'

def isAlphaA (c : Char) : Bool := isUpperA c || isLowerA c

def isAlnumA (c : Char) : Bool := isAlphaA c || isDigitA c

def emailLocalChar (c : Char) : Bool :=
  isAlnumA c || c = '.' || c = '_' || c = '%' || c = '+' || c = '-'

def emailDomainChar (c : Char) : Bool := isAlnumA c || c = '.' || c = '-'

/-- `/[a-zA-Z0-9._%+-]+@[a-zA-Z0-9.-]+\.[a-z]{2,}/g` -/
def emailRE : RE :=
  .seq (rplus (.cls emailLocalChar))
    (.seq (rchar '@')
      (.seq (rplus (.cls emailDomainChar))
        (.seq (rchar '.') (.seq (.cls isLowerA) (rplus (.cls isLowerA))))))

def spDash (c : Char) : Bool := isSpaceJS c || c = '-'

def sixToNine (c : Char) : Bool := '6' ≤ c && c ≤ '9'

def digitRE : RE := .cls isDigitA

/-- `/(\+?91|0)?[\s-]?[6-9]\d{2}[\s-]?\d{3}[\s-]?\d{4}|(\+1[\s-]?)?(\(\d{3}\)|[\s-]?\d{3})[\s-]?\d{3}[\s-]?\d{4}/g` -/
def phoneRE : RE :=
  .alt
    (.seq (ropt (.alt (.seq (ropt (rchar '+')) (rstr "91")) (rchar '0')))
      (.seq (ropt (.cls spDash))
        (.seq (.cls sixToNine)
          (.seq (rrep digitRE 2)
            (.seq (ropt (.cls spDash))
              (.seq (rrep digitRE 3)
                (.seq (ropt (.cls spDash)) (rrep digitRE 4))))))))
    (.seq (ropt (.seq (rstr "+1") (ropt (.cls spDash))))
      (.seq (.alt (.seq (rchar '(') (.seq (rrep digitRE 3) (rchar ')')))
                  (.seq (ropt (.cls spDash)) (rrep digitRE 3)))
        (.seq (ropt (.cls spDash))
          (.seq (rrep digitRE 3)
            (.seq (ropt (.cls spDash)) (rrep digitRE 4))))))

def linkedinChar (c : Char) : Bool := isAlnumA c || c = '-' || c = '_' || c = '%'

/-- `/(https?:\/\/)?(www\.)?linkedin\.com\/in\/[a-zA-Z0-9\-_%]+/gi` -/
def linkedinRE : RE :=
  .seq (ropt (.seq (ristr "http") (.seq (ropt (ichar 's')) (ristr "://"))))
    (.seq (ropt (ristr "www."))
      (.seq (ristr "linkedin.com/in/") (rplus (.cls linkedinChar))))

def nameSepChar (c : Char) : Bool := isSpaceJS c || c = '-' || c = '\''

def nameWordRE : RE := .seq (.cls isUpperA) (rplus (.cls isLowerA))

/-- The personal-name shape regex: a capitalised word, then any
number of capitalised words joined by whitespace, hyphen or
apostrophe, then an optional single capital initial, anchored at both
ends. -/
def nameShapeRE : RE :=
  .seq nameWordRE
    (.seq (.star (.seq (.cls nameSepChar) nameWordRE))
      (ropt (.seq (.cls isSpaceJS) (.cls isUpperA))))

example : firstMatch emailRE "to: jane.doe@example.com.".data
    = some "jane.doe@example.com".data := by rfl
example : firstMatch emailRE "no at sign".data = none := by rfl
example : firstMatch linkedinRE "see linkedin.com/in/janedoe now".data
    = some "linkedin.com/in/janedoe".data := by rfl
example : firstMatch phoneRE "+1 415-555-0100".data = some "+1 415-555-0100".data := by rfl
example : firstMatch phoneRE "call 9876543210".data = some " 9876543210".data := by rfl
example : reTest nameShapeRE "Jane Doe".data = true := by rfl
example : reTest nameShapeRE "Jane Q. Doe".data = false := by rfl
example : reTest nameShapeRE "Jean-Luc Picard".data = true := by rfl
example : reTest nameShapeRE "John D".data = true := by rfl

/- ============================================================
   String utilities used by the extractors
   ============================================================ -/

/-- `text.split` on the newline character. -/
def splitNL : List Char → List (List Char)
  | [] => [[]]
  | c :: t =>
    let r := splitNL t
    if c = '\n' then [] :: r
    else
      match r with
      | h :: rest => (c :: h) :: rest
      | [] => [[c]]

/-- Trailing-whitespace removal. -/
def trimEndJS (l : List Char) : List Char := (l.reverse.dropWhile isSpaceJS).reverse

/-- `s.trim()`. -/
def trimJS (l : List Char) : List Char := trimEndJS (l.dropWhile isSpaceJS)

/-- Word constituent (`\w`). -/
def isWordChar (c : Char) : Bool := isAlnumA c || c = '_'

/-- `replace(/\b\w/g, c => c.toUpperCase())`: upper-case every word
character that does not follow a word character. -/
def titleizeFrom (prevWord : Bool) : List Char → List Char
  | [] => []
  | c :: t =>
    (if isWordChar c && !prevWord then c.toUpper else c) :: titleizeFrom (isWordChar c) t

/-- `haystack.includes(pat)`. -/
def containsSeq (pat : List Char) : List Char → Bool
  | [] => pat.isEmpty
  | c :: t => pat.isPrefixOf (c :: t) || containsSeq pat t

/- ============================================================
   extractNameRegex (the deterministic fallback)
   ============================================================ -/

/-- The fixed blacklist of `extractNameRegex`. -/
def nameBlacklist : List String :=
  ["engineering", "engineer", "electronics", "communication",
   "computer", "science", "technology", "information",
   "chennai", "bangalore", "india", "profile", "summary",
   "resume", "curriculum", "switzerland", "germany", "france",
   "united states", "united kingdom", "zurich", "embedded",
   "developer", "manager", "intern", "internship", "student",
   "graduate", "university", "college", "systems", "administrator",
   "private", "ltd", "inc", "company", "corp", "tech", "solutions",
   "pvt", "llc", "gmbh", "srl", "group", "enterprises"]

/-- `/[0-9@:/!]/` line rejection. -/
def lineBadChar (c : Char) : Bool :=
  isDigitA c || c = '@' || c = ':' || c = '/' || c = '!'

/-- `/^[A-Z\s]+$/` all-caps test. -/
def allCapsLine (l : List Char) : Bool :=
  !l.isEmpty && l.all (fun c => isUpperA c || isSpaceJS c)

/-- The `for (const line of lines.slice(0, 20))` loop body. -/
def nameFromLines : List (List Char) → Option String
  | [] => none
  | line :: rest =>
    let lower := line.map Char.toLower
    if nameBlacklist.any (fun w => containsSeq w.data lower) then nameFromLines rest
    else if line.any lineBadChar then nameFromLines rest
    else
      let normalized :=
        if allCapsLine line then titleizeFrom false (line.map Char.toLower) else line
      if reTest nameShapeRE normalized then some (String.mk normalized)
      else nameFromLines rest

/-- `extractNameRegex`: scan the first 20 trimmed non-empty lines
shorter than 60 characters; `none` models the `null` result. -/
def extractNameRegex (text : String) : Option String :=
  let lines := ((splitNL text.data).map trimJS).filter (fun l => 0 < l.length && l.length < 60)
  nameFromLines (lines.take 20)

example : extractNameRegex "RAVI KUMAR\nEmbedded Developer\nravi@x.in" = some "Ravi Kumar" := by rfl
example : extractNameRegex "Chennai Resume\n12345" = none := by rfl

/- ============================================================
   extractPhones
   ============================================================ -/

/-- Characters removed from a matched phone (whitespace, hyphen,
parentheses). -/
def stripPhoneChar (c : Char) : Bool :=
  isSpaceJS c || c = '-' || c = '(' || c = ')'

/-- A leading trunk digit 0 is rewritten to the +91 country code. -/
def replaceLeadingZero : List Char → List Char
  | '0' :: t => '+' :: '9' :: '1' :: t
  | l => l

/-- Exactly `n` decimal digits at the head: the digits and the rest. -/
def digitsN : Nat → List Char → Option (List Char × List Char)
  | 0, cs => some ([], cs)
  | _ + 1, [] => none
  | n + 1, c :: cs =>
    if isDigitA c then (digitsN n cs).map (fun p => (c :: p.fst, p.snd)) else none

/-- `[6-9]\d{9}` at the head. -/
def try10 : List Char → Option (List Char)
  | c :: t => if sixToNine c then (digitsN 9 t).map (fun p => c :: p.fst) else none
  | [] => none

/-- `/(\+91[\s]?)?([6-9]\d{9})/` at the head, with the backtracking a
JS engine performs on the optional groups; yields `m[0]`. -/
def tryPatA : List Char → Option (List Char)
  | '+' :: '9' :: '1' :: rest =>
    (match rest with
     | c :: t =>
       if isSpaceJS c then
         match try10 t with
         | some d => some ('+' :: '9' :: '1' :: c :: d)
         | none => (try10 rest).map (fun d => '+' :: '9' :: '1' :: d)
       else (try10 rest).map (fun d => '+' :: '9' :: '1' :: d)
     | [] => none)
  | cs => try10 cs

/-- `/\(91\)[\s]?([6-9]\d{4})[\s-]?(\d{5})/` at the head; yields the
two capture groups. -/
def tryPatB : List Char → Option (List Char × List Char)
  | '(' :: '9' :: '1' :: ')' :: rest =>
    let attempt : List Char → Option (List Char × List Char) := fun cs =>
      match cs with
      | c :: t =>
        if sixToNine c then
          match digitsN 4 t with
          | some (d4, t2) =>
            (match t2 with
             | c2 :: t3 =>
               if spDash c2 then
                 match digitsN 5 t3 with
                 | some (g2, _) => some (c :: d4, g2)
                 | none => (digitsN 5 t2).map (fun p => (c :: d4, p.fst))
               else (digitsN 5 t2).map (fun p => (c :: d4, p.fst))
             | [] => none)
          | none => none
        else none
      | [] => none
    (match rest with
     | c :: t =>
       if isSpaceJS c then
         match attempt t with
         | some r => some r
         | none => attempt rest
       else attempt rest
     | [] => none)
  | _ => none

/-- Scan every start position, leftmost first. -/
def scanFor {α : Type} (f : List Char → Option α) : List Char → Option α
  | [] => f []
  | c :: t =>
    match f (c :: t) with
    | some r => some r
    | none => scanFor f t

/-- One iteration of the line fallback of `extractPhones`. -/
def phoneFallbackLine (l : List Char) : Option String :=
  match scanFor tryPatA l with
  | some m => some (String.mk (trimJS m))
  | none =>
    match scanFor tryPatB l with
    | some (g1, g2) => some ("+91" ++ String.mk g1 ++ String.mk g2)
    | none => none

/-- The `for (const line of lines)` fallback loop. -/
def phoneFallback : List (List Char) → String
  | [] => "—"
  | l :: ls =>
    match phoneFallbackLine l with
    | some s => s
    | none => phoneFallback ls

/-- `extractPhones` from the source: first match of the combined
pattern, cleaned up, else the line-by-line fallback, else the unset
sentinel. -/
def extractPhones (text : String) : String :=
  match firstMatch phoneRE text.data with
  | some m =>
    let phone := replaceLeadingZero (m.filter (fun c => !stripPhoneChar c))
    if phone.isEmpty then "—" else String.mk phone
  | none => phoneFallback (splitNL text.data)

example : extractPhones "tel +1 415-555-0100" = "+14155550100" := by rfl
example : extractPhones "tel 09876543210" = "+91987654321" := by rfl
example : extractPhones "no phone here" = "—" := by rfl

/- ============================================================
   Outbound calls, the name cache, extractNameWithLLM
   ============================================================ -/

/-- Outcome of the one outbound provider call a function performs:
the fetch (or a later shape access) threw, the response had a
non-success status (`msg` is the already-resolved
already-resolved provider error text), or it succeeded
with the given textual completion (`data.choices[0].message.content`,
or `data.content[0].text` for the system-field-separate provider). -/
inductive FetchOutcome where
  | throw (msg : String)
  | httpError (msg : String)
  | reply (content : String)

/-- The process-wide `nameCache` object: newest binding first. -/
abbrev NameCache := List (String × Json)

/-- `nameCache[key]`. -/
def cacheLookup (cache : NameCache) (k : String) : Option Json :=
  (cache.find? (fun kv => kv.fst = k)).map (·.snd)

/-- The name field of the parsed reply, with the literal string
Unknown treated as null. -/
def nameFieldOf (result : Json) : Option Json :=
  match objGet result "name" with
  | some (.str s) => if s = "Unknown" then none else some (.str s)
  | other => other

/-- The cache-miss path of `extractNameWithLLM`: perform the network
call (`true` in the third component records that it happened), parse
the first JSON span of the reply, read its `name` field, and cache the
name exactly when it is truthy.  Every failure is caught and becomes
`null`. -/
def extractNameMiss (cache : NameCache) (resumeFileName : String) (o : FetchOutcome) :
    Option Json × NameCache × Bool :=
  match o with
  | .throw _ => (none, cache, true)
  | .httpError _ => (none, cache, true)
  | .reply content =>
    match braceSpan content.data with
    | none => (none, cache, true)
    | some span =>
      match jsonParse span with
      | none => (none, cache, true)
      | some result =>
        match nameFieldOf result with
        | some v =>
          if jsTruthy v then (some v, (resumeFileName, v) :: cache, true)
          else (some v, cache, true)
        | none => (none, cache, true)

/-- `extractNameWithLLM(text, resumeFileName)`.  The resume text only
shapes the outbound prompt and is summarised by the oracle `o`.
Returns the name (or `none` for `null`/`undefined`), the cache after
the call, and whether a network call was made.  A truthy cached value
short-circuits without a network call. -/
def extractNameWithLLM (cache : NameCache) (resumeFileName : String) (o : FetchOutcome) :
    Option Json × NameCache × Bool :=
  if jsTruthyOpt (cacheLookup cache resumeFileName) then
    (cacheLookup cache resumeFileName, cache, false)
  else extractNameMiss cache resumeFileName o

/- ============================================================
   extractEntities
   ============================================================ -/

/-- The record built by `extractEntities`.  `candidate_name` is the
raw JS value (the name, defaulted to Unknown), a string in every
normal run. -/
structure CandidateEntities where
  candidate_name : Json
  email : String
  phone : String
  linkedin : String

/-- The resolved name when truthy, else the Unknown sentinel. -/
def jsOrUnknown (name : Option Json) : Json :=
  match name with
  | some v => if jsTruthy v then v else .str "Unknown"
  | none => .str "Unknown"

/-- `if (!name) { name = extractNameRegex(text); }`. -/
def nameWithFallback (llmName : Option Json) (text : String) : Option Json :=
  if jsTruthyOpt llmName then llmName
  else
    match extractNameRegex text with
    | some s => some (.str s)
    | none => none

/-- The first email match, with the unset sentinel when there is
none (or the match is the empty string). -/
def emailField (text : String) : String :=
  match firstMatch emailRE text.data with
  | some m => if m.isEmpty then "—" else String.mk m
  | none => "—"

/-- The linkedin field: first match, normalised to an `https://`
prefix when the match is schemeless; unset sentinel when absent. -/
def linkedinField (text : String) : String :=
  match firstMatch linkedinRE text.data with
  | some m => if "http".data.isPrefixOf m then String.mk m else "https://" ++ String.mk m
  | none => "—"

/-- `extractEntities(text, resumeFileName)`: model-based name with
regex fallback and `Unknown` sentinel, first email match or sentinel,
phone extraction, first profile URL match normalised to `https://`. -/
def extractEntities (cache : NameCache) (text : String) (resumeFileName : String)
    (o : FetchOutcome) : CandidateEntities × NameCache :=
  let r := extractNameWithLLM cache resumeFileName o
  ({ candidate_name := jsOrUnknown (nameWithFallback r.fst text),
     email := emailField text,
     phone := extractPhones text,
     linkedin := linkedinField text }, r.snd.fst)

/- ============================================================
   scoreResumeWithLLM
   ============================================================ -/

/-- The parsed provider reply with its coerced score: the source
overwrites `result.match_score` in place and returns `result`; the
other consumed fields are its raw properties. -/
structure ScoreResult where
  match_score : Int
  skills_match : Option Json
  experience_fit : Option Json
  seniority_fit : Option Json
  summary : Option Json

/-- `scoreResumeWithLLM(resumeText, jdText)`: the texts only shape the
prompt and are summarised by the oracle.  A non-success status or a
reply without parseable JSON throws (the function rethrows in its
catch block); otherwise the first JSON span of the reply is parsed and the
score is coerced into an integer in [0,100]. -/
def scoreResumeWithLLM (o : FetchOutcome) : Except String ScoreResult :=
  match o with
  | .throw msg => .error msg
  | .httpError msg => .error msg
  | .reply content =>
    match extractJSON content.data with
    | .error e => .error e
    | .ok result =>
      .ok { match_score := coerceMatchScore (objGet result "match_score"),
            skills_match := objGet result "skills_match",
            experience_fit := objGet result "experience_fit",
            seniority_fit := objGet result "seniority_fit",
            summary := objGet result "summary" }

/- ============================================================
   The batch endpoint /api/batch-match
   ============================================================ -/

/-- `truncate` from the source (`max = 2000` at every batch call site). -/
def truncate (text : String) (maxLen : Nat) : String :=
  if text.length > maxLen then String.mk (text.data.take maxLen) else text

/-- What happened to one uploaded resume outside the model: its PDF
failed to parse, or it produced text and the two outbound calls for it
(name extraction, scoring) had the given outcomes. -/
inductive ResumeOutcome where
  | pdfFail (msg : String)
  | parsed (text : String) (nameFetch : FetchOutcome) (scoreFetch : FetchOutcome)

/-- One element of `req.files.resumes`. -/
structure ResumeFile where
  originalname : String
  outcome : ResumeOutcome

/-- One entry of `ranked_results`. -/
structure RankedResult where
  resume_name : String
  candidate_name : Json
  match_score : Int
  skills_match : Option Json
  experience_fit : Option Json
  seniority_fit : Option Json
  summary : Option Json
  email : String
  phone : String
  linkedin : String

/-- The failure-variant result pushed by the per-resume catch block. -/
def errorResult (nm msg : String) : RankedResult :=
  { resume_name := nm, candidate_name := .str "Unknown", match_score := 0,
    skills_match := none, experience_fit := none,
    seniority_fit := some (.str "Weak"),
    summary := some (.str ("Error: " ++ msg)),
    email := "—", phone := "—", linkedin := "—" }

/-- The success result pushed by the loop body. -/
def successResult (nm : String) (ents : CandidateEntities) (sr : ScoreResult) : RankedResult :=
  { resume_name := nm, candidate_name := ents.candidate_name,
    match_score := sr.match_score, skills_match := sr.skills_match,
    experience_fit := sr.experience_fit, seniority_fit := sr.seniority_fit,
    summary := sr.summary,
    email := ents.email, phone := ents.phone, linkedin := ents.linkedin }

/-- The `try { ... } catch { results.push(error entry) }` body for one
resume.  A PDF failure throws before entity extraction; a scoring
failure throws after it, so cache writes made during entity extraction
persist. -/
def processResume (cache : NameCache) (r : ResumeFile) : RankedResult × NameCache :=
  match r.outcome with
  | .pdfFail msg => (errorResult r.originalname msg, cache)
  | .parsed raw nf sf =>
    let resumeText := truncate raw 2000
    let p := extractEntities cache resumeText r.originalname nf
    match scoreResumeWithLLM sf with
    | .error msg => (errorResult r.originalname msg, p.snd)
    | .ok sr => (successResult r.originalname p.fst sr, p.snd)

/-- The `for (const resumeFile of resumeFiles)` loop: results in
submission order, cache threaded through. -/
def processAll (cache : NameCache) : List ResumeFile → List RankedResult × NameCache
  | [] => ([], cache)
  | r :: rs =>
    let p := processResume cache r
    let q := processAll p.snd rs
    (p.fst :: q.fst, q.snd)

/-- Descending-score ordering used by
`results.sort((a, b) => b.match_score - a.match_score)`. -/
def scoreGe (a b : RankedResult) : Prop := b.match_score ≤ a.match_score

instance : DecidableRel scoreGe :=
  fun a b => inferInstanceAs (Decidable (b.match_score ≤ a.match_score))

instance : IsTotal RankedResult scoreGe :=
  ⟨fun a b => Int.le_total b.match_score a.match_score⟩

instance : IsTrans RankedResult scoreGe :=
  ⟨fun _ _ _ hab hbc => le_trans hbc hab⟩

/-- `Array.prototype.sort` with that comparator: stable (ES2019) and
sorted by descending score, which determines the result uniquely; we
model it with the stable insertion sort. -/
def sortRanked (l : List RankedResult) : List RankedResult :=
  l.insertionSort scoreGe

/-- The job-description upload: absent, unparseable, or parsed text. -/
inductive JdOutcome where
  | missing : JdOutcome
  | pdfFail (msg : String)
  | parsed (text : String)

/-- Responses of the batch endpoint. -/
inductive BatchResponse where
  | clientError (status : Nat) (error : String)
  | serverError (status : Nat) (error : String)
  | ok (total : Nat) (ranked_results : List RankedResult)

/-- The `/api/batch-match` handler: reject an empty resume set or a
missing JD with HTTP 400 before any processing; a JD parse failure
hits the outer catch (HTTP 500); otherwise process every resume,
sort, and answer with the conserved total. -/
def batchMatch (cache : NameCache) (resumes : List ResumeFile) (jd : JdOutcome) :
    BatchResponse × NameCache :=
  if resumes.isEmpty || (match jd with | .missing => true | _ => false) then
    (.clientError 400 "Missing resumes or JD file", cache)
  else
    match jd with
    | .missing => (.clientError 400 "Missing resumes or JD file", cache)
    | .pdfFail msg => (.serverError 500 msg, cache)
    | .parsed _ =>
      let p := processAll cache resumes
      let ranked := sortRanked p.fst
      (.ok p.fst.length ranked, p.snd)

/- ============================================================
   Helper lemmas about the batch loop and the sort
   ============================================================ -/

lemma processAll_length (cache : NameCache) (rs : List ResumeFile) :
    (processAll cache rs).fst.length = rs.length := by
  induction rs generalizing cache with
  | nil => rfl
  | cons r rs ih => simp [processAll, ih]

lemma processResume_name (cache : NameCache) (r : ResumeFile) :
    (processResume cache r).fst.resume_name = r.originalname := by
  cases h : r.outcome with
  | pdfFail m => simp [processResume, h, errorResult]
  | parsed raw nf sf =>
    simp only [processResume, h]
    cases scoreResumeWithLLM sf <;> simp [errorResult, successResult]

lemma processAll_names (cache : NameCache) (rs : List ResumeFile) :
    (processAll cache rs).fst.map RankedResult.resume_name
      = rs.map ResumeFile.originalname := by
  induction rs generalizing cache with
  | nil => rfl
  | cons r rs ih => simp [processAll, processResume_name, ih]

lemma processAll_append (cache : NameCache) (xs ys : List ResumeFile) :
    processAll cache (xs ++ ys)
      = ((processAll cache xs).fst ++ (processAll (processAll cache xs).snd ys).fst,
         (processAll (processAll cache xs).snd ys).snd) := by
  induction xs generalizing cache with
  | nil => simp [processAll]
  | cons x xs ih => simp [processAll, ih]

lemma filter_orderedInsert_eq (x : RankedResult) (l : List RankedResult) (s : Int)
    (hx : x.match_score = s) :
    (l.orderedInsert scoreGe x).filter (fun r => r.match_score == s)
      = x :: l.filter (fun r => r.match_score == s) := by
  induction l with
  | nil => simp [List.orderedInsert, hx]
  | cons y ys ih =>
    by_cases hr : scoreGe x y
    · simp [List.orderedInsert, hr, hx]
    · have hy : ¬ (y.match_score = s) := by
        unfold scoreGe at hr
        omega
      simp [List.orderedInsert, hr, hy, ih]

lemma filter_orderedInsert_ne (x : RankedResult) (l : List RankedResult) (s : Int)
    (hx : ¬ (x.match_score = s)) :
    (l.orderedInsert scoreGe x).filter (fun r => r.match_score == s)
      = l.filter (fun r => r.match_score == s) := by
  induction l with
  | nil => simp [List.orderedInsert, hx]
  | cons y ys ih =>
    by_cases hr : scoreGe x y
    · simp [List.orderedInsert, hr, hx]
    · simp only [List.orderedInsert, if_neg hr, List.filter_cons, ih]

lemma filter_sortRanked (l : List RankedResult) (s : Int) :
    (sortRanked l).filter (fun r => r.match_score == s)
      = l.filter (fun r => r.match_score == s) := by
  induction l with
  | nil => rfl
  | cons x xs ih =>
    show ((xs.insertionSort scoreGe).orderedInsert scoreGe x).filter _ = _
    by_cases hx : x.match_score = s
    · rw [filter_orderedInsert_eq _ _ _ hx]
      simp only [sortRanked] at ih
      rw [ih]
      simp [hx]
    · rw [filter_orderedInsert_ne _ _ _ hx]
      simp only [sortRanked] at ih
      rw [ih]
      simp [hx]

/- ============================================================
   Claims C9, C1, C2
   ============================================================ -/

/-- C9: a batch request with an empty resume set or a missing job
description is answered with HTTP 400 and its fixed error message, and
nothing is processed: no ranked results are produced and the name
cache is untouched. -/
theorem batch_missing_inputs_client_error (cache : NameCache) (resumes : List ResumeFile)
    (jd : JdOutcome) (h : resumes = [] ∨ jd = .missing) :
    batchMatch cache resumes jd = (.clientError 400 "Missing resumes or JD file", cache) := by
  rcases h with h | h
  · subst h
    simp [batchMatch]
  · subst h
    simp [batchMatch]

/-- Witness for C9 at a concrete request with resumes but no JD. -/
theorem batch_missing_inputs_client_error_witness :
    batchMatch [] [⟨"cv.pdf", .pdfFail "x"⟩] .missing
      = (.clientError 400 "Missing resumes or JD file", []) :=
  batch_missing_inputs_client_error [] [⟨"cv.pdf", .pdfFail "x"⟩] .missing (Or.inr rfl)

/-- C1: a batch with a non-empty resume list and a parsed job
description is answered with exactly one ranked entry per submitted
resume: `total` equals the number of resumes, `ranked_results` has
that length, and its `resume_name`s are a permutation of the submitted
file names, regardless of individual failures. -/
theorem batch_size_conserved (cache : NameCache) (resumes : List ResumeFile)
    (jdText : String) (h : resumes ≠ []) :
    ∃ ranked c',
      batchMatch cache resumes (.parsed jdText) = (.ok resumes.length ranked, c')
        ∧ ranked.length = resumes.length
        ∧ (ranked.map RankedResult.resume_name).Perm
            (resumes.map ResumeFile.originalname) := by
  cases resumes with
  | nil => exact absurd rfl h
  | cons r rs =>
    refine ⟨sortRanked (processAll cache (r :: rs)).fst,
            (processAll cache (r :: rs)).snd, ?_, ?_, ?_⟩
    · simp [batchMatch, sortRanked, processAll_length]
    · rw [sortRanked, List.length_insertionSort, processAll_length]
    · have hp := (List.perm_insertionSort scoreGe (processAll cache (r :: rs)).fst).map
        RankedResult.resume_name
      rw [processAll_names] at hp
      exact hp

/-- Witness for C1 at a concrete one-resume batch. -/
theorem batch_size_conserved_witness :
    ∃ ranked c',
      batchMatch [] [⟨"cv.pdf", .pdfFail "x"⟩] (.parsed "jd") = (.ok 1 ranked, c')
        ∧ ranked.length = 1 := by
  obtain ⟨ranked, c', h1, h2, _⟩ :=
    batch_size_conserved [] [⟨"cv.pdf", .pdfFail "x"⟩] "jd" (by simp)
  exact ⟨ranked, c', h1, h2⟩

/-- C2: the ranked results of a successful batch are sorted
non-increasingly by `match_score`, and entries of equal score keep the
relative order in which their resumes were submitted: filtering the
output at any score value yields exactly the submission-ordered
results of that score. -/
theorem batch_ranked_sorted_stable (cache : NameCache) (resumes : List ResumeFile)
    (jdText : String) (h : resumes ≠ []) :
    ∃ ranked c',
      batchMatch cache resumes (.parsed jdText) = (.ok resumes.length ranked, c')
        ∧ List.Pairwise (fun a b => b.match_score ≤ a.match_score) ranked
        ∧ ∀ s : Int,
            ranked.filter (fun r => r.match_score == s)
              = (processAll cache resumes).fst.filter (fun r => r.match_score == s) := by
  cases resumes with
  | nil => exact absurd rfl h
  | cons r rs =>
    refine ⟨sortRanked (processAll cache (r :: rs)).fst,
            (processAll cache (r :: rs)).snd, ?_, ?_, ?_⟩
    · simp [batchMatch, sortRanked, processAll_length]
    · exact List.sorted_insertionSort scoreGe _
    · exact fun s => filter_sortRanked _ s

/-- Witness for C2 at a concrete one-resume batch. -/
theorem batch_ranked_sorted_stable_witness :
    ∃ ranked c',
      batchMatch [] [⟨"cv.pdf", .pdfFail "x"⟩] (.parsed "jd") = (.ok 1 ranked, c')
        ∧ List.Pairwise (fun a b => b.match_score ≤ a.match_score) ranked := by
  obtain ⟨ranked, c', h1, h2, _⟩ :=
    batch_ranked_sorted_stable [] [⟨"cv.pdf", .pdfFail "x"⟩] "jd" (by simp)
  exact ⟨ranked, c', h1, h2⟩

/- ============================================================
   Claims C3 and C10 (score coercion)
   ============================================================ -/

/-- C3: every score accepted by the scoring path is an integer in
[0,100]; a parseable value above 100 is clamped to 100, one below 0 is
clamped to 0, a non-numeric or missing value becomes 50 instead of
failing, and the score placed in the result is exactly the coercion of
the raw `match_score` field of the reply. -/
theorem match_score_clamped_in_range :
    (∀ o r, scoreResumeWithLLM o = .ok r → 0 ≤ r.match_score ∧ r.match_score ≤ 100)
    ∧ (∀ v i, parseIntJS v = some i → 100 < i → coerceMatchScore v = 100)
    ∧ (∀ v i, parseIntJS v = some i → i < 0 → coerceMatchScore v = 0)
    ∧ (∀ v, parseIntJS v = none → coerceMatchScore v = 50)
    ∧ (∀ content result, extractJSON content = .ok result →
        ∃ r, scoreResumeWithLLM (.reply (String.mk content)) = .ok r
          ∧ r.match_score = coerceMatchScore (objGet result "match_score")) := by
  refine ⟨?_, ?_, ?_, ?_, ?_⟩
  · intro o r h
    cases o with
    | throw m => simp [scoreResumeWithLLM] at h
    | httpError m => simp [scoreResumeWithLLM] at h
    | reply content =>
      simp only [scoreResumeWithLLM] at h
      cases hx : extractJSON content.data with
      | error e => rw [hx] at h; simp at h
      | ok result =>
        rw [hx] at h
        simp only [Except.ok.injEq] at h
        subst h
        unfold coerceMatchScore
        constructor
        · exact le_max_left 0 _
        · exact max_le (by omega) (min_le_left 100 _)
  · intro v i h hi
    simp only [coerceMatchScore, h]
    rw [if_neg (by omega : ¬ (i = 0)),
        min_eq_left (by omega : (100 : Int) ≤ i),
        max_eq_right (by norm_num : (0 : Int) ≤ 100)]
  · intro v i h hi
    simp only [coerceMatchScore, h]
    rw [if_neg (by omega : ¬ (i = 0)),
        min_eq_right (by omega : i ≤ (100 : Int)),
        max_eq_left (by omega : i ≤ (0 : Int))]
  · intro v h
    simp only [coerceMatchScore, h]
    rw [min_eq_right (by norm_num : (50 : Int) ≤ 100),
        max_eq_right (by norm_num : (0 : Int) ≤ 50)]
  · intro content result h
    refine ⟨{ match_score := coerceMatchScore (objGet result "match_score"),
              skills_match := objGet result "skills_match",
              experience_fit := objGet result "experience_fit",
              seniority_fit := objGet result "seniority_fit",
              summary := objGet result "summary" }, ?_, rfl⟩
    simp only [scoreResumeWithLLM]
    rw [h]

/-- Witness for C3: a reply score of 150 is clamped to 100, the
string N/A defaults to 50, and a negative score is clamped to 0. -/
theorem match_score_clamped_in_range_witness :
    coerceMatchScore (some (.num 150 0)) = 100
      ∧ coerceMatchScore (some (.str "N/A")) = 50
      ∧ coerceMatchScore (some (.num (-5) 0)) = 0 :=
  ⟨match_score_clamped_in_range.2.1 (some (.num 150 0)) 150 (by decide) (by decide),
   match_score_clamped_in_range.2.2.2.1 (some (.str "N/A")) (by decide),
   match_score_clamped_in_range.2.2.1 (some (.num (-5) 0)) (-5) (by decide) (by decide)⟩

/-- C10: a provider score that `parseInt` maps to 0 (the number 0, the
string 0, or any magnitude-below-one value) is indistinguishable from
a missing score — the falsiness fallback turns it into 50, and the
scoring function places 50, not 0, in the result. -/
theorem zero_score_defaults_to_fifty :
    (∀ v, parseIntJS v = some 0 → coerceMatchScore v = 50)
    ∧ (∀ content result, extractJSON content = .ok result →
        parseIntJS (objGet result "match_score") = some 0 →
        ∃ r, scoreResumeWithLLM (.reply (String.mk content)) = .ok r
          ∧ r.match_score = 50) := by
  have hcoe : ∀ v, parseIntJS v = some 0 → coerceMatchScore v = 50 := by
    intro v h
    simp only [coerceMatchScore, h, if_true]
    rw [min_eq_right (by norm_num : (50 : Int) ≤ 100),
        max_eq_right (by norm_num : (0 : Int) ≤ 50)]
  refine ⟨hcoe, ?_⟩
  intro content result h h0
  refine ⟨{ match_score := coerceMatchScore (objGet result "match_score"),
            skills_match := objGet result "skills_match",
            experience_fit := objGet result "experience_fit",
            seniority_fit := objGet result "seniority_fit",
            summary := objGet result "summary" }, ?_, ?_⟩
  · simp only [scoreResumeWithLLM]
    rw [h]
  · exact hcoe _ h0

/-- Witness for C10: the provider numbers 0 and 0.4 and the string 0
all come back as 50. -/
theorem zero_score_defaults_to_fifty_witness :
    coerceMatchScore (some (.num 0 0)) = 50
      ∧ coerceMatchScore (some (.str "0")) = 50
      ∧ coerceMatchScore (some (.num 4 (-1))) = 50 :=
  ⟨zero_score_defaults_to_fifty.1 (some (.num 0 0)) (by decide),
   zero_score_defaults_to_fifty.1 (some (.str "0")) (by decide),
   zero_score_defaults_to_fifty.1 (some (.num 4 (-1))) (by decide)⟩

/- ============================================================
   Claim C4 (per-resume failure isolation)
   ============================================================ -/

/-- The message with which processing of one resume fails, when it
does: its PDF failed to parse, or its scoring call failed.  Entity
extraction never throws, so these are the only failure sources inside
the loop body. -/
def resumeFailureMsg : ResumeOutcome → Option String
  | .pdfFail m => some m
  | .parsed _ _ sf =>
    match scoreResumeWithLLM sf with
    | .error m => some m
    | .ok _ => none

lemma processResume_failure (cache : NameCache) (r : ResumeFile) (msg : String)
    (h : resumeFailureMsg r.outcome = some msg) :
    (processResume cache r).fst = errorResult r.originalname msg := by
  cases ho : r.outcome with
  | pdfFail m =>
    rw [ho] at h
    simp only [resumeFailureMsg, Option.some.injEq] at h
    subst h
    simp [processResume, ho]
  | parsed raw nf sf =>
    rw [ho] at h
    simp only [resumeFailureMsg] at h
    cases hs : scoreResumeWithLLM sf with
    | error m =>
      rw [hs] at h
      simp only [Option.some.injEq] at h
      subst h
      simp [processResume, ho, hs]
    | ok sr =>
      rw [hs] at h
      simp at h

/-- C4: when processing of one resume fails at any step, the loop
converts just that resume into the failure-variant entry — zero score,
`Weak` fit, the failure reason as summary — while the resumes before
and after it in the batch are processed exactly as they would have
been, with the name cache threaded through. -/
theorem per_resume_failure_isolated (cache : NameCache) (pre post : List ResumeFile)
    (r : ResumeFile) (msg : String) (h : resumeFailureMsg r.outcome = some msg) :
    (processAll cache (pre ++ r :: post)).fst
      = (processAll cache pre).fst
        ++ errorResult r.originalname msg
          :: (processAll (processResume (processAll cache pre).snd r).snd post).fst
    ∧ (errorResult r.originalname msg).match_score = 0
    ∧ (errorResult r.originalname msg).seniority_fit = some (.str "Weak")
    ∧ (errorResult r.originalname msg).summary = some (.str ("Error: " ++ msg)) := by
  refine ⟨?_, rfl, rfl, rfl⟩
  rw [processAll_append]
  simp only [processAll]
  rw [processResume_failure _ r msg h]

/-- Witness for C4: a concrete three-resume batch in which only the
middle resume fails (its scoring call throws). -/
theorem per_resume_failure_isolated_witness :
    (processAll [] [⟨"a.pdf", .pdfFail "p"⟩,
                    ⟨"b.pdf", .parsed "txt" (.throw "t") (.throw "boom")⟩,
                    ⟨"c.pdf", .pdfFail "q"⟩]).fst
      = (processAll [] [⟨"a.pdf", .pdfFail "p"⟩]).fst
        ++ errorResult "b.pdf" "boom"
          :: (processAll
                (processResume
                  (processAll [] [⟨"a.pdf", .pdfFail "p"⟩]).snd
                  ⟨"b.pdf", .parsed "txt" (.throw "t") (.throw "boom")⟩).snd
                [⟨"c.pdf", .pdfFail "q"⟩]).fst
      ∧ (errorResult "b.pdf" "boom").match_score = 0
      ∧ (errorResult "b.pdf" "boom").seniority_fit = some (.str "Weak") := by
  obtain ⟨h1, h2, h3, _⟩ :=
    per_resume_failure_isolated [] [⟨"a.pdf", .pdfFail "p"⟩] [⟨"c.pdf", .pdfFail "q"⟩]
      ⟨"b.pdf", .parsed "txt" (.throw "t") (.throw "boom")⟩ "boom" rfl
  exact ⟨h1, h2, h3⟩

/- ============================================================
   Claim C5 (response parsing is greedy, not first-balanced)
   ============================================================ -/

lemma dropWhile_append_all (p : Char → Bool) (l1 l2 : List Char)
    (h : ∀ c ∈ l1, p c = true) : (l1 ++ l2).dropWhile p = l2.dropWhile p := by
  induction l1 with
  | nil => rfl
  | cons c t ih =>
    rw [List.cons_append, List.dropWhile_cons, if_pos (h c (List.mem_cons_self c t))]
    exact ih (fun x hx => h x (List.mem_cons_of_mem c hx))

lemma braceSpan_locates (pre mid post : List Char)
    (hpre : ∀ c ∈ pre, c ≠ '{') (hpost : ∀ c ∈ post, c ≠ '}') :
    braceSpan (pre ++ ('{' :: mid ++ ['}']) ++ post) = some ('{' :: mid ++ ['}']) := by
  have h1 : (pre ++ ('{' :: mid ++ ['}']) ++ post).dropWhile (· ≠ '{')
      = '{' :: (mid ++ ['}'] ++ post) := by
    rw [List.append_assoc,
        dropWhile_append_all _ pre _ (fun c hc => by simpa using hpre c hc)]
    simp [List.dropWhile_cons]
  have h2 : ('{' :: (mid ++ ['}'] ++ post)).reverse
      = post.reverse ++ ('}' :: (mid.reverse ++ ['{'])) := by
    simp
  have h3 : ('{' :: (mid ++ ['}'] ++ post)).reverse.dropWhile (· ≠ '}')
      = '}' :: (mid.reverse ++ ['{']) := by
    rw [h2,
        dropWhile_append_all _ post.reverse _
          (fun c hc => by simpa using hpost c (List.mem_reverse.mp hc)),
        List.dropWhile_cons]
    simp
  unfold braceSpan
  rw [h1, h3]
  simp

/-- C5 counterexample: on a reply containing two JSON objects, the
extractor does not parse the first one as the claim states; the greedy
regex spans from the first brace to the last, `JSON.parse` of that
span fails, and the call errors — while the claim-worded
first-balanced extractor would have returned the first object. -/
theorem extractJSON_not_first_object_cex :
    extractJSON twoObjectReply = .error "Unexpected token in JSON"
      ∧ extractJSONSpec twoObjectReply = .ok (.obj [("a", .num 1 0)])
      ∧ braceSpan twoObjectReply = some twoObjectReply :=
  ⟨rfl, rfl, rfl⟩

/-- C5 amended: response parsing takes the span from the first brace
of the reply to its last closing brace (the greedy regex match) and
JSON-parses that span; when no such span exists, or the span fails to
parse — in particular when the reply contains more than one JSON
object — the call fails with a malformed-response error.  A single
JSON object surrounded by brace-free text is located exactly and
parsed. -/
theorem extractJSON_greedy_span_behavior (pre mid post : List Char)
    (hpre : ∀ c ∈ pre, c ≠ '{') (hpost : ∀ c ∈ post, c ≠ '}') :
    (∀ cs, braceSpan cs = none → extractJSON cs = .error "LLM did not return valid JSON")
    ∧ braceSpan (pre ++ ('{' :: mid ++ ['}']) ++ post) = some ('{' :: mid ++ ['}'])
    ∧ (∀ v, jsonParse ('{' :: mid ++ ['}']) = some v →
        extractJSON (pre ++ ('{' :: mid ++ ['}']) ++ post) = .ok v)
    ∧ (jsonParse ('{' :: mid ++ ['}']) = none →
        extractJSON (pre ++ ('{' :: mid ++ ['}']) ++ post)
          = .error "Unexpected token in JSON") := by
  refine ⟨?_, braceSpan_locates pre mid post hpre hpost, ?_, ?_⟩
  · intro cs h
    unfold extractJSON
    rw [h]
  · intro v hv
    unfold extractJSON
    rw [braceSpan_locates pre mid post hpre hpost]
    show (match jsonParse ('{' :: mid ++ ['}']) with
          | some w => Except.ok w
          | none => (Except.error "Unexpected token in JSON" : Except String Json))
        = Except.ok v
    rw [hv]
  · intro hv
    unfold extractJSON
    rw [braceSpan_locates pre mid post hpre hpost]
    show (match jsonParse ('{' :: mid ++ ['}']) with
          | some w => Except.ok w
          | none => (Except.error "Unexpected token in JSON" : Except String Json))
        = Except.error "Unexpected token in JSON"
    rw [hv]

/-- Witness for C5 amended, at a concrete reply with surrounding
text. -/
theorem extractJSON_greedy_span_behavior_witness :
    extractJSON ("ok: ".data ++ ('{' :: "\"a\":1".data ++ ['}']) ++ " done".data)
      = .ok (.obj [("a", .num 1 0)]) := by
  obtain ⟨_, _, h3, _⟩ :=
    extractJSON_greedy_span_behavior "ok: ".data "\"a\":1".data " done".data
      (by decide) (by decide)
  exact h3 (.obj [("a", .num 1 0)]) (by rfl)

/- ============================================================
   Claim C6 (extractEntities total, sentinel contract)
   ============================================================ -/

lemma mkStr_ne_empty (m : List Char) (h : m ≠ []) : String.mk m ≠ "" :=
  fun he => h (congrArg String.data he)

lemma jsOrUnknown_truthy (nm : Option Json) : jsTruthy (jsOrUnknown nm) = true := by
  cases nm with
  | none => decide
  | some v =>
    by_cases h : jsTruthy v
    · simp only [jsOrUnknown, if_pos h]
      exact h
    · simp only [jsOrUnknown, if_neg h]
      decide

lemma jsOrUnknown_ne_empty (nm : Option Json) : jsOrUnknown nm ≠ .str "" := by
  intro he
  have h := jsOrUnknown_truthy nm
  rw [he] at h
  exact absurd h (by decide)

lemma emailField_ne (text : String) : emailField text ≠ "" := by
  unfold emailField
  split
  · split
    · decide
    · rename_i m _ hne
      exact mkStr_ne_empty m (fun hnil => hne (by rw [hnil]; rfl))
  · decide

lemma emailField_sentinel (text : String) (h : firstMatch emailRE text.data = none) :
    emailField text = "—" := by
  unfold emailField
  rw [h]

lemma httpPrefix_ne (m : List Char) (h : "http".data.isPrefixOf m = true) : m ≠ [] := by
  intro hnil
  rw [hnil] at h
  exact absurd h (by decide)

lemma linkedinField_ne (text : String) : linkedinField text ≠ "" := by
  unfold linkedinField
  split
  · split
    · rename_i m _ hp
      exact mkStr_ne_empty m (httpPrefix_ne m hp)
    · intro he
      exact List.cons_ne_nil 'h' _ (congrArg String.data he)
  · decide

lemma linkedinField_sentinel (text : String) (h : firstMatch linkedinRE text.data = none) :
    linkedinField text = "—" := by
  unfold linkedinField
  rw [h]

lemma sixToNine_not_space (c : Char) (h : sixToNine c = true) : isSpaceJS c = false := by
  unfold sixToNine at h
  rw [Bool.and_eq_true, decide_eq_true_eq, decide_eq_true_eq] at h
  by_contra hs
  rw [Bool.not_eq_false] at hs
  unfold isSpaceJS at hs
  simp only [Bool.or_eq_true, decide_eq_true_eq] at hs
  rcases hs with ((((((hs | hs) | hs) | hs) | hs) | hs) | hs) <;>
    first
      | (subst hs; exact absurd h.1 (by decide))
      | (subst hs; exact absurd h.2 (by decide))

lemma dropWhile_ne_nil (p : Char → Bool) (l : List Char) (c : Char)
    (hc : c ∈ l) (hp : p c = false) : l.dropWhile p ≠ [] := by
  induction l with
  | nil => cases hc
  | cons d t ih =>
    rw [List.dropWhile_cons]
    by_cases hd : p d = true
    · rw [if_pos hd]
      rcases List.mem_cons.mp hc with rfl | hct
      · rw [hd] at hp; cases hp
      · exact ih hct
    · rw [if_neg hd]
      exact List.cons_ne_nil d t

lemma trimJS_cons_ne (c : Char) (t : List Char) (h : isSpaceJS c = false) :
    trimJS (c :: t) ≠ [] := by
  unfold trimJS
  rw [List.dropWhile_cons, if_neg (by rw [h]; exact Bool.false_ne_true)]
  unfold trimEndJS
  intro he
  have h2 : (c :: t).reverse.dropWhile isSpaceJS = [] := by
    have := congrArg List.reverse he
    simpa using this
  exact dropWhile_ne_nil isSpaceJS (c :: t).reverse c (by simp) h h2

lemma try10_shape (cs m : List Char) (h : try10 cs = some m) :
    ∃ c t, m = c :: t ∧ isSpaceJS c = false := by
  unfold try10 at h
  split at h
  · rename_i c t
    split at h
    · rename_i hc
      rw [Option.map_eq_some'] at h
      obtain ⟨p, _, hm⟩ := h
      exact ⟨c, p.fst, hm.symm, sixToNine_not_space c hc⟩
    · exact absurd h (by simp)
  · exact absurd h (by simp)

lemma tryPatA_shape (cs m : List Char) (h : tryPatA cs = some m) :
    ∃ c t, m = c :: t ∧ isSpaceJS c = false := by
  unfold tryPatA at h
  split at h
  · rename_i rest
    split at h
    · rename_i c t
      split at h
      · split at h
        · rename_i d _
          obtain rfl := Option.some.inj h
          exact ⟨'+', _, rfl, by decide⟩
        · rw [Option.map_eq_some'] at h
          obtain ⟨d, _, hm⟩ := h
          exact ⟨'+', _, hm.symm, by decide⟩
      · rw [Option.map_eq_some'] at h
        obtain ⟨d, _, hm⟩ := h
        exact ⟨'+', _, hm.symm, by decide⟩
    · exact absurd h (by simp)
  · exact try10_shape _ m h

lemma scanFor_prop {α : Type} (P : α → Prop) (f : List Char → Option α)
    (hf : ∀ cs m, f cs = some m → P m) :
    ∀ l m, scanFor f l = some m → P m := by
  intro l
  induction l with
  | nil => exact fun m h => hf [] m h
  | cons c t ih =>
    intro m h
    unfold scanFor at h
    split at h
    · rename_i r hr
      obtain rfl := Option.some.inj h
      exact hf _ _ hr
    · exact ih m h

lemma plus91_ne (x y : String) : ("+91" ++ x ++ y) ≠ "" := by
  intro he
  exact List.cons_ne_nil '+' _ (congrArg String.data he)

lemma phoneFallbackLine_ne (l : List Char) (s : String)
    (h : phoneFallbackLine l = some s) : s ≠ "" := by
  unfold phoneFallbackLine at h
  split at h
  · rename_i m hm
    obtain rfl := Option.some.inj h
    obtain ⟨c, t, rfl, hc⟩ :=
      scanFor_prop (fun m => ∃ c t, m = c :: t ∧ isSpaceJS c = false) tryPatA tryPatA_shape l m hm
    exact mkStr_ne_empty _ (trimJS_cons_ne c t hc)
  · split at h
    · rename_i g _
      obtain rfl := Option.some.inj h
      exact plus91_ne _ _
    · exact absurd h (by simp)

lemma phoneFallback_ne (ls : List (List Char)) : phoneFallback ls ≠ "" := by
  induction ls with
  | nil => decide
  | cons l t ih =>
    unfold phoneFallback
    split
    · rename_i s hs
      exact phoneFallbackLine_ne l s hs
    · exact ih

lemma extractPhones_ne (text : String) : extractPhones text ≠ "" := by
  unfold extractPhones
  split
  · dsimp only
    split
    · decide
    · rename_i hne
      exact mkStr_ne_empty _ (fun hnil => hne (by rw [hnil]; rfl))
  · exact phoneFallback_ne _

lemma phoneFallback_none (ls : List (List Char))
    (h : ∀ l ∈ ls, phoneFallbackLine l = none) : phoneFallback ls = "—" := by
  induction ls with
  | nil => rfl
  | cons l t ih =>
    unfold phoneFallback
    rw [h l (List.mem_cons_self l t)]
    exact ih (fun x hx => h x (List.mem_cons_of_mem l hx))

lemma extractPhones_sentinel (text : String) (h1 : firstMatch phoneRE text.data = none)
    (h2 : ∀ l ∈ splitNL text.data, phoneFallbackLine l = none) :
    extractPhones text = "—" := by
  unfold extractPhones
  rw [h1]
  exact phoneFallback_none _ h2

/-- C6: `extractEntities` always returns normally, whatever the
outbound call did: the candidate name is truthy — a populated value or
the `Unknown` sentinel, never the empty string — and each of email,
phone and profile URL is never the empty string, and is the unset
sentinel whenever its pattern is absent from the text. -/
theorem extractEntities_sentinel_contract (cache : NameCache) (text resumeFileName : String)
    (o : FetchOutcome) :
    jsTruthy (extractEntities cache text resumeFileName o).fst.candidate_name = true
    ∧ (extractEntities cache text resumeFileName o).fst.candidate_name ≠ .str ""
    ∧ (extractEntities cache text resumeFileName o).fst.email ≠ ""
    ∧ (extractEntities cache text resumeFileName o).fst.phone ≠ ""
    ∧ (extractEntities cache text resumeFileName o).fst.linkedin ≠ ""
    ∧ (firstMatch emailRE text.data = none →
        (extractEntities cache text resumeFileName o).fst.email = "—")
    ∧ (firstMatch linkedinRE text.data = none →
        (extractEntities cache text resumeFileName o).fst.linkedin = "—")
    ∧ (firstMatch phoneRE text.data = none →
        (∀ l ∈ splitNL text.data, phoneFallbackLine l = none) →
        (extractEntities cache text resumeFileName o).fst.phone = "—") :=
  ⟨jsOrUnknown_truthy _, jsOrUnknown_ne_empty _, emailField_ne text, extractPhones_ne text,
   linkedinField_ne text, fun h => emailField_sentinel text h,
   fun h => linkedinField_sentinel text h, fun h1 h2 => extractPhones_sentinel text h1 h2⟩

/-- Witness for C6 on a concrete text with none of the patterns and a
throwing name call. -/
theorem extractEntities_sentinel_contract_witness :
    (extractEntities [] "hello world" "cv.pdf" (.throw "x")).fst.email = "—"
      ∧ (extractEntities [] "hello world" "cv.pdf" (.throw "x")).fst.phone = "—"
      ∧ (extractEntities [] "hello world" "cv.pdf" (.throw "x")).fst.linkedin = "—"
      ∧ jsTruthy (extractEntities [] "hello world" "cv.pdf" (.throw "x")).fst.candidate_name
          = true := by
  obtain ⟨h1, _, _, _, _, h6, h7, h8⟩ :=
    extractEntities_sentinel_contract [] "hello world" "cv.pdf" (.throw "x")
  exact ⟨h6 (by rfl), h8 (by rfl) (by decide), h7 (by rfl), h1⟩

/- ============================================================
   Claim C7 (name cache behaviour)
   ============================================================ -/

lemma extractNameMiss_cases (cache : NameCache) (key : String) (o : FetchOutcome) :
    extractNameMiss cache key o = (none, cache, true)
    ∨ (∃ v, jsTruthy v = false ∧ extractNameMiss cache key o = (some v, cache, true))
    ∨ (∃ v, jsTruthy v = true
          ∧ extractNameMiss cache key o = (some v, (key, v) :: cache, true)) := by
  cases o with
  | throw m => exact Or.inl rfl
  | httpError m => exact Or.inl rfl
  | reply content =>
    simp only [extractNameMiss]
    split
    · exact Or.inl rfl
    · split
      · exact Or.inl rfl
      · split
        · rename_i v hveq
          by_cases hv : jsTruthy v = true
          · rw [if_pos hv]
            exact Or.inr (Or.inr ⟨v, hv, rfl⟩)
          · rw [if_neg hv]
            exact Or.inr (Or.inl ⟨v, Bool.not_eq_true _ ▸ hv, rfl⟩)
        · exact Or.inl rfl

lemma extractNameWithLLM_hit (cache : NameCache) (key : String) (o : FetchOutcome)
    (v : Json) (hv : cacheLookup cache key = some v) (ht : jsTruthy v = true) :
    extractNameWithLLM cache key o = (some v, cache, false) := by
  unfold extractNameWithLLM
  rw [hv]
  simp [jsTruthyOpt, ht]

lemma cacheLookup_cons_self (key : String) (v : Json) (cache : NameCache) :
    cacheLookup ((key, v) :: cache) key = some v := by
  simp [cacheLookup, List.find?]

/-- C7: the name cache short-circuits and is written only on success.
First: a resolution that did not produce a truthy name leaves the
cache unchanged.  Second: whenever the cache changed, the call
resolved a truthy name over the network (so a regex fallback or a
failed resolution is never cached) and the new cache is the old one
with that name stored under the resume id.  Third: after any call that
returned a truthy name, a second call with the same resume id returns
the same name from the cache, makes no network call, and leaves the
cache as it was.  Fourth: entity extraction makes no cache writes of
its own beyond that call. -/
theorem name_cache_hit_and_write_policy :
    (∀ cache key o, jsTruthyOpt (extractNameWithLLM cache key o).fst = false →
        (extractNameWithLLM cache key o).snd.fst = cache)
    ∧ (∀ cache key o, (extractNameWithLLM cache key o).snd.fst ≠ cache →
        ∃ v, (extractNameWithLLM cache key o).fst = some v ∧ jsTruthy v = true
          ∧ (extractNameWithLLM cache key o).snd.snd = true
          ∧ (extractNameWithLLM cache key o).snd.fst = (key, v) :: cache)
    ∧ (∀ cache key o o2 v c1 n,
        extractNameWithLLM cache key o = (some v, c1, n) → jsTruthy v = true →
        extractNameWithLLM c1 key o2 = (some v, c1, false))
    ∧ (∀ cache text key o,
        (extractEntities cache text key o).snd = (extractNameWithLLM cache key o).snd.fst) := by
  refine ⟨?_, ?_, ?_, fun _ _ _ _ => rfl⟩
  · intro cache key o hfalse
    unfold extractNameWithLLM at hfalse ⊢
    by_cases hc : jsTruthyOpt (cacheLookup cache key) = true
    · rw [if_pos hc] at hfalse
      simp [hc] at hfalse
    · rw [if_neg hc] at hfalse ⊢
      rcases extractNameMiss_cases cache key o with h | ⟨v, hv, h⟩ | ⟨v, hv, h⟩
      · rw [h]
      · rw [h]
      · rw [h] at hfalse
        simp [jsTruthyOpt, hv] at hfalse
  · intro cache key o hne
    unfold extractNameWithLLM at hne ⊢
    by_cases hc : jsTruthyOpt (cacheLookup cache key) = true
    · rw [if_pos hc] at hne
      exact absurd rfl hne
    · rw [if_neg hc] at hne ⊢
      rcases extractNameMiss_cases cache key o with h | ⟨v, hv, h⟩ | ⟨v, hv, h⟩
      · rw [h] at hne
        exact absurd rfl hne
      · rw [h] at hne
        exact absurd rfl hne
      · rw [h]
        exact ⟨v, rfl, hv, rfl, rfl⟩
  · intro cache key o o2 v c1 n h ht
    unfold extractNameWithLLM at h
    by_cases hc : jsTruthyOpt (cacheLookup cache key) = true
    · rw [if_pos hc] at h
      simp only [Prod.mk.injEq] at h
      obtain ⟨h1, h2, _⟩ := h
      subst h2
      exact extractNameWithLLM_hit _ key o2 _ h1 ht
    · rw [if_neg hc] at h
      rcases extractNameMiss_cases cache key o with hm | ⟨w, hw, hm⟩ | ⟨w, hw, hm⟩
      · rw [hm] at h
        simp only [Prod.mk.injEq] at h
        exact absurd h.1 (by simp)
      · rw [hm] at h
        simp only [Prod.mk.injEq] at h
        obtain ⟨h1, h2, _⟩ := h
        obtain rfl := Option.some.inj h1
        rw [ht] at hw
        cases hw
      · rw [hm] at h
        simp only [Prod.mk.injEq] at h
        obtain ⟨h1, h2, _⟩ := h
        obtain rfl := Option.some.inj h1
        subst h2
        exact extractNameWithLLM_hit _ key o2 _ (cacheLookup_cons_self key _ cache) ht

/-- A concrete provider reply carrying a name. -/
def nameReply : List Char :=
  ['{', '"', 'n', 'a', 'm', 'e', '"', ':', '"', 'J', 'o', 'h', 'n', '"', '}']

/-- Witness for C7: after a successful concrete first resolution, the
second call with the same resume id is a cache hit with no network
call. -/
theorem name_cache_hit_and_write_policy_witness :
    extractNameWithLLM [("cv.pdf", Json.str "John")] "cv.pdf" (.throw "net down")
      = (some (.str "John"), [("cv.pdf", Json.str "John")], false) :=
  name_cache_hit_and_write_policy.2.2.1 [] "cv.pdf" (.reply (String.mk nameReply))
    (.throw "net down") (.str "John") [("cv.pdf", Json.str "John")] true
    (by rfl) (by decide)

/- ============================================================
   Claim C8 (rateLimitedFetch / processQueue throttle)
   ============================================================ -/

/-- `REQUEST_DELAY = 500` (ms between API requests). -/
def REQUEST_DELAY : Nat := 500

/-- Worker status: idle (`isProcessing === false`), a task in flight,
or cooling down in the fixed delay after a completed task
(`isProcessing` stays true until the delay elapses). -/
inductive QStatus where
  | idle : QStatus
  | running (t : Nat) : QStatus
  | cooling : QStatus

/-- The throttle state: the `requestQueue` contents plus the worker
status. -/
structure QState where
  queue : List Nat
  status : QStatus

/-- Observable events of the throttle. -/
inductive QEvent where
  | enqueue (t : Nat) : QEvent
  | start (t : Nat) : QEvent
  | complete (t : Nat) : QEvent
  | delayDone (ms : Nat) : QEvent
deriving DecidableEq

/-- Small-step transitions of `rateLimitedFetch`/`processQueue`:
`enqueue` pushes at the back in any state; `start` pops the front
task, and only an idle worker may start one (the `isProcessing` check
and set run synchronously on the event loop, with no await between
them, so they are atomic); `complete` finishes the in-flight task and
enters the cooldown; `delayDone` is the `setTimeout(REQUEST_DELAY)`
wakeup that clears `isProcessing`, after which the next task may
start. -/
inductive QStep : QState → QEvent → QState → Prop where
  | enq (q : List Nat) (st : QStatus) (t : Nat) :
      QStep ⟨q, st⟩ (.enqueue t) ⟨q ++ [t], st⟩
  | begin_ (q : List Nat) (t : Nat) :
      QStep ⟨t :: q, .idle⟩ (.start t) ⟨q, .running t⟩
  | fin (q : List Nat) (t : Nat) :
      QStep ⟨q, .running t⟩ (.complete t) ⟨q, .cooling⟩
  | cool (q : List Nat) :
      QStep ⟨q, .cooling⟩ (.delayDone REQUEST_DELAY) ⟨q, .idle⟩

/-- Multi-step execution over an event list. -/
inductive QTrace : QState → List QEvent → QState → Prop where
  | nil (s : QState) : QTrace s [] s
  | cons {s s1 s2 : QState} {e : QEvent} {es : List QEvent} :
      QStep s e s1 → QTrace s1 es s2 → QTrace s (e :: es) s2

/-- Tasks enqueued in a trace, in order. -/
def enqueuedOf (tr : List QEvent) : List Nat :=
  tr.filterMap (fun e => match e with | .enqueue t => some t | _ => none)

/-- Tasks started in a trace, in order. -/
def startedOf (tr : List QEvent) : List Nat :=
  tr.filterMap (fun e => match e with | .start t => some t | _ => none)

/-- Tasks completed in a trace, in order. -/
def completedOf (tr : List QEvent) : List Nat :=
  tr.filterMap (fun e => match e with | .complete t => some t | _ => none)

/-- Number of in-flight tasks encoded by a status. -/
def flight : QStatus → Nat
  | .running _ => 1
  | _ => 0

/-- The state at process start: empty queue, idle worker. -/
def initQ : QState := ⟨[], .idle⟩

lemma qtrace_append {s s2 : QState} {tr1 tr2 : List QEvent}
    (h : QTrace s (tr1 ++ tr2) s2) : ∃ s1, QTrace s tr1 s1 ∧ QTrace s1 tr2 s2 := by
  induction tr1 generalizing s with
  | nil => exact ⟨s, QTrace.nil s, h⟩
  | cons e es ih =>
    cases h with
    | cons hstep htr =>
      obtain ⟨s1, h1, h2⟩ := ih htr
      exact ⟨s1, QTrace.cons hstep h1, h2⟩

lemma qtrace_fifo {s s2 : QState} {tr : List QEvent} (h : QTrace s tr s2) :
    s.queue ++ enqueuedOf tr = startedOf tr ++ s2.queue := by
  induction h with
  | nil => simp [enqueuedOf, startedOf]
  | cons hstep htr ih =>
    rename_i s s1 s2' e es
    cases hstep with
    | enq q st t =>
      simp only [enqueuedOf, startedOf, List.filterMap_cons] at ih ⊢
      simpa [List.append_assoc] using ih
    | begin_ q t =>
      simp only [enqueuedOf, startedOf, List.filterMap_cons] at ih ⊢
      simpa using ih
    | fin q t =>
      simp only [enqueuedOf, startedOf, List.filterMap_cons] at ih ⊢
      simpa using ih
    | cool q =>
      simp only [enqueuedOf, startedOf, List.filterMap_cons] at ih ⊢
      simpa using ih

lemma qtrace_flight {s s2 : QState} {tr : List QEvent} (h : QTrace s tr s2) :
    flight s.status + (startedOf tr).length
      = (completedOf tr).length + flight s2.status := by
  induction h with
  | nil => simp [startedOf, completedOf]
  | cons hstep htr ih =>
    cases hstep with
    | enq q st t =>
      simp only [startedOf, completedOf, List.filterMap_cons] at ih ⊢
      simpa using ih
    | begin_ q t =>
      simp only [startedOf, completedOf, List.filterMap_cons, List.length_cons] at ih ⊢
      simp only [flight] at ih ⊢
      omega
    | fin q t =>
      simp only [startedOf, completedOf, List.filterMap_cons, List.length_cons] at ih ⊢
      simp only [flight] at ih ⊢
      omega
    | cool q =>
      simp only [startedOf, completedOf, List.filterMap_cons] at ih ⊢
      simpa using ih

lemma flight_le_one (st : QStatus) : flight st ≤ 1 := by
  cases st <;> simp [flight]

lemma no_start_without_delay {s s2 : QState} {tr : List QEvent} (h : QTrace s tr s2)
    (hst : s.status = .cooling) (hnd : ∀ ms, QEvent.delayDone ms ∉ tr) :
    ∀ u, QEvent.start u ∉ tr := by
  induction h with
  | nil => intro u hu; cases hu
  | cons hstep htr ih =>
    intro u hu
    cases hstep with
    | enq q st t =>
      rcases List.mem_cons.mp hu with he | he
      · cases he
      · exact ih (by simpa using hst) (fun ms hms => hnd ms (List.mem_cons_of_mem _ hms)) u he
    | begin_ q t => cases hst
    | fin q t => cases hst
    | cool q => exact absurd (List.mem_cons_self _ _) (hnd REQUEST_DELAY)

lemma delay_value {s s2 : QState} {tr : List QEvent} (h : QTrace s tr s2) :
    ∀ ms, QEvent.delayDone ms ∈ tr → ms = REQUEST_DELAY := by
  induction h with
  | nil => intro ms hm; cases hm
  | cons hstep htr ih =>
    intro ms hm
    rcases List.mem_cons.mp hm with he | he
    · cases hstep <;> cases he
      rfl
    · exact ih ms he

/-- C8: in every execution of the throttle from process start, tasks
start in exactly the order they were enqueued (the started tasks are a
prefix of the enqueued ones, the queue holding the rest); at most one
task is ever in flight (in every prefix of the trace the number of
starts exceeds the number of completions by at most one); after a task
completes, no further task starts until the fixed delay has elapsed;
and that delay is always exactly `REQUEST_DELAY` (≈500 ms) —
regardless of how many callers enqueue, since `enqueue` is allowed in
every state. -/
theorem throttle_fifo_single_flight_delay :
    (∀ tr s, QTrace initQ tr s → startedOf tr ++ s.queue = enqueuedOf tr)
    ∧ (∀ tr s, QTrace initQ tr s → ∀ tr1 tr2, tr = tr1 ++ tr2 →
        (startedOf tr1).length ≤ (completedOf tr1).length + 1)
    ∧ (∀ tr s t tr1 tr2, QTrace initQ tr s → tr = tr1 ++ QEvent.complete t :: tr2 →
        (∀ ms, QEvent.delayDone ms ∉ tr2) → ∀ u, QEvent.start u ∉ tr2)
    ∧ (∀ tr s, QTrace initQ tr s → ∀ ms, QEvent.delayDone ms ∈ tr → ms = REQUEST_DELAY) := by
  refine ⟨?_, ?_, ?_, ?_⟩
  · intro tr s h
    have := qtrace_fifo h
    simpa [initQ] using this.symm
  · intro tr s h tr1 tr2 htr
    subst htr
    obtain ⟨s1, h1, _⟩ := qtrace_append h
    have hf := qtrace_flight h1
    have hle := flight_le_one s1.status
    have h0 : flight initQ.status = 0 := rfl
    rw [h0] at hf
    omega
  · intro tr s t tr1 tr2 h htr hnd
    subst htr
    obtain ⟨s1, _, h2⟩ := qtrace_append h
    cases h2 with
    | cons hstep htr2 =>
      cases hstep with
      | fin q t => exact no_start_without_delay htr2 rfl hnd
  · intro tr s h
    exact delay_value h

/-- A concrete execution: two callers enqueue, the first task runs and
completes, the 500 ms delay elapses, the second task starts. -/
def demoTrace : List QEvent :=
  [.enqueue 0, .enqueue 1, .start 0, .complete 0, .delayDone REQUEST_DELAY, .start 1]

lemma demoTrace_valid : QTrace initQ demoTrace ⟨[], .running 1⟩ :=
  QTrace.cons (QStep.enq [] .idle 0)
    (QTrace.cons (QStep.enq [0] .idle 1)
      (QTrace.cons (QStep.begin_ [1] 0)
        (QTrace.cons (QStep.fin [1] 0)
          (QTrace.cons (QStep.cool [1])
            (QTrace.cons (QStep.begin_ [] 1) (QTrace.nil _))))))

/-- Witness for C8 on the concrete trace. -/
theorem throttle_fifo_single_flight_delay_witness :
    startedOf demoTrace ++ ([] : List Nat) = enqueuedOf demoTrace
      ∧ (startedOf (demoTrace.take 4)).length
          ≤ (completedOf (demoTrace.take 4)).length + 1 := by
  constructor
  · exact throttle_fifo_single_flight_delay.1 demoTrace ⟨[], .running 1⟩ demoTrace_valid
  · exact throttle_fifo_single_flight_delay.2.1 demoTrace ⟨[], .running 1⟩ demoTrace_valid
      (demoTrace.take 4) (demoTrace.drop 4) (List.take_append_drop 4 demoTrace).symm
